import Mathlib

/-!
Shallow embedding of the task-state synchronization engine of the
`yanshu` repository: the persisted task store
(`pkg/db/image_generation_db.py`), the per-session cache and the
generation/notification tools (`pkg/tools/image_generator.py`), and the
completion-ingress endpoint (`pkg/api/image_generation_api.py`), together
with theorems settling the frozen claims about them.

Modelling conventions: `DateTime` values are abstract instants (`Nat`);
nullable columns are `Option`; the SQLite table is a list of rows; Python
dicts for session-state entries are total records of optional fields where
an absent key is the outer `none`.
-/

namespace Yanshu

/-- Row of the `image_generation_tasks` table (`ImageGenerationTask` in
`pkg/db/image_generation_db.py`). -/
structure Task where
  id : String
  prompt : String
  status : String
  image_url : Option String
  error_message : Option String
  created_at : Nat
  completed_at : Option Nat
  session_id : Option String
  run_id : Option String
deriving DecidableEq, Repr

/-- The task store: the rows of the single `image_generation_tasks` table. -/
abbrev Store := List Task

/-- `ImageGenerationDB.get_task`: the row with the given primary key, if any. -/
def get_task (store : Store) (task_id : String) : Option Task :=
  store.find? (fun t => t.id == task_id)

/-- `ImageGenerationDB.create_task`: inserts a fresh `pending` row with no
`completed_at`; the primary-key constraint makes a duplicate id fail
(`none`). -/
def create_task (store : Store) (task_id prompt : String)
    (session_id run_id : Option String) (now : Nat) : Option Store :=
  if (get_task store task_id).isSome then none
  else some (store ++ [⟨task_id, prompt, "pending", none, none, now, none, session_id, run_id⟩])

/-- Field-wise effect of `ImageGenerationDB.update_task` on the matching row:
each argument that is not `None` overwrites the corresponding column, the
others are left alone. -/
def applyUpdate (t : Task) (status image_url error_message : Option String)
    (completed_at : Option Nat) : Task :=
  { t with
    status := status.getD t.status
    image_url := match image_url with | some u => some u | none => t.image_url
    error_message := match error_message with | some m => some m | none => t.error_message
    completed_at := match completed_at with | some c => some c | none => t.completed_at }

/-- `ImageGenerationDB.update_task`: updates the row with the given id; when
the id is unknown no row is touched (the method returns `None`). -/
def update_task (store : Store) (task_id : String)
    (status image_url error_message : Option String)
    (completed_at : Option Nat) : Store :=
  store.map (fun t =>
    if t.id == task_id then applyUpdate t status image_url error_message completed_at else t)

/-- Lexicographic comparison of two character lists by code point, the
comparison Python applies to strings. -/
def charsLe : List Char → List Char → Bool
  | [], _ => true
  | _ :: _, [] => false
  | a :: as, b :: bs =>
    if a.toNat < b.toNat then true
    else if b.toNat < a.toNat then false
    else charsLe as bs

/-- Python string comparison `a <= b` (code-point lexicographic). -/
def strLe (a b : String) : Bool := charsLe a.data b.data

/-- Stable insertion of `x` into a list sorted descending under the
comparison `le`: `x` is placed before the first element that does not exceed
it, which is the stability behaviour of Python's
`list.sort(key=..., reverse=True)`. -/
def insertDescBy {α : Type} (le : α → α → Bool) (x : α) :
    List α → List α
  | [] => [x]
  | y :: ys => if le y x then x :: y :: ys else y :: insertDescBy le x ys

/-- Stable sort, descending under `le` (Python `list.sort(key=..., reverse=True)`,
also the `ORDER BY created_at DESC` of the queries). -/
def sortDescBy {α : Type} (le : α → α → Bool) (l : List α) : List α :=
  l.foldr (insertDescBy le) []

/-- One optional filter applied to a non-nullable column: `if status:` in
`ImageGenerationDB.list_tasks` ignores falsy (`None` or empty) filter values. -/
def filterHit (col : String) (f : Option String) : Bool :=
  match f with
  | some s => if s == "" then true else col == s
  | none => true

/-- One optional filter applied to a nullable column (`session_id`, `run_id`). -/
def filterHitOpt (col : Option String) (f : Option String) : Bool :=
  match f with
  | some s => if s == "" then true else col == some s
  | none => true

/-- Conjunction of the three optional filters of `ImageGenerationDB.list_tasks`. -/
def matchesFilters (t : Task) (status session_id run_id : Option String) : Bool :=
  filterHit t.status status && filterHitOpt t.session_id session_id &&
    filterHitOpt t.run_id run_id

/-- `ImageGenerationDB.list_tasks`: conjunctive filtering, `total` counted
before pagination, rows ordered by `created_at` descending, then
`OFFSET offset LIMIT limit`. -/
def list_tasks (store : Store) (status session_id run_id : Option String)
    (limit offset : Nat) : Nat × List Task :=
  let rows := store.filter (fun t => matchesFilters t status session_id run_id)
  (rows.length,
    ((sortDescBy (fun a b => Nat.ble a.created_at b.created_at) rows).drop offset).take limit)

/-- A session-state task entry is a Python dict; it is modelled as a total
record of optional fields, the outer `none` standing for an absent key and
the inner `none` for a key present with value `None`. -/
structure Entry where
  task_id : Option (Option String)
  prompt : Option (Option String)
  status : Option (Option String)
  image_url : Option (Option String)
  error_message : Option (Option String)
  created_at : Option (Option String)
  completed_at : Option (Option String)
  session_id : Option (Option String)
  run_id : Option (Option String)
deriving DecidableEq, Repr

/-- The keys a session-state entry may carry. -/
inductive Field
  | taskId | prompt | status | imageUrl | errorMessage
  | createdAt | completedAt | sessionId | runId
deriving DecidableEq, Repr

/-- Dict lookup on an entry. -/
def Entry.get (e : Entry) : Field → Option (Option String)
  | .taskId => e.task_id
  | .prompt => e.prompt
  | .status => e.status
  | .imageUrl => e.image_url
  | .errorMessage => e.error_message
  | .createdAt => e.created_at
  | .completedAt => e.completed_at
  | .sessionId => e.session_id
  | .runId => e.run_id

/-- One key of the Python dict union: the new value wins when the key is
present in the update, otherwise the old value stays. -/
def over (new old : Option (Option String)) : Option (Option String) :=
  match new with
  | some v => some v
  | none => old

/-- Python dict union of `_update_task_in_session_state` (the double-unpacking
of `task` then `task_info` into one dict): keys present in `b` overwrite,
keys absent from `b` keep the value of `a`. -/
def mergeEntry (a b : Entry) : Entry :=
  ⟨over b.task_id a.task_id, over b.prompt a.prompt, over b.status a.status,
   over b.image_url a.image_url, over b.error_message a.error_message,
   over b.created_at a.created_at, over b.completed_at a.completed_at,
   over b.session_id a.session_id, over b.run_id a.run_id⟩

/-- `ImageGeneratorTools._update_task_in_session_state`: merge into the first
entry whose `task_id` key equals that of the update, appending the update as
a new entry when no entry matches. -/
def update_task_in_session_state (tasks : List Entry) (info : Entry) : List Entry :=
  match tasks with
  | [] => [info]
  | t :: rest =>
    if t.task_id == info.task_id then mergeEntry t info :: rest
    else t :: update_task_in_session_state rest info

/-- The non-terminal test used verbatim by `_cleanup_old_tasks` and
`sync_pending_tasks`: the membership check of the dict value `t.get("status")`
in the tuple `("pending", "processing")`; an absent key or a status outside
the tuple both fail the test. -/
def isNonTerminalEntry (e : Entry) : Bool :=
  match e.status with
  | some (some s) => s == "pending" || s == "processing"
  | _ => false

/-- Sort key of `_cleanup_old_tasks`: `x.get("created_at", "")`, with the
default `""` for an absent key.  Timestamps live in the cache as ISO strings
and compare lexicographically. -/
def entryKey (e : Entry) : String :=
  match e.created_at with
  | some (some s) => s
  | _ => ""

/-- The module-level constant `MAX_TASKS_IN_SESSION_STATE`. -/
def MAX_TASKS_IN_SESSION_STATE : Nat := 20

/-- `ImageGeneratorTools._cleanup_old_tasks`: when more than the cap is held,
keep every non-terminal entry, then the most recently created terminal
entries (stable descending sort on `created_at`) up to the remaining slots. -/
def cleanup_old_tasks (tasks : List Entry) : List Entry :=
  if tasks.length ≤ MAX_TASKS_IN_SESSION_STATE then tasks
  else
    let pending_tasks := tasks.filter isNonTerminalEntry
    let completed_tasks := tasks.filter (fun t => !isNonTerminalEntry t)
    let sorted_completed :=
      sortDescBy (fun a b => strLe (entryKey a) (entryKey b)) completed_tasks
    let remaining_slots : Int := (MAX_TASKS_IN_SESSION_STATE : Int) - pending_tasks.length
    let kept_completed := sorted_completed.take (max 0 remaining_slots).toNat
    pending_tasks ++ kept_completed

/-- The Python truthiness filter `t.get("task_id")` of `sync_pending_tasks`:
an absent key, a `None` value and the empty string are all falsy. -/
def truthyId (e : Entry) : Option String :=
  match e.task_id with
  | some (some s) => if s == "" then none else some s
  | _ => none

/-- The `pending_task_ids` list comprehension of `sync_pending_tasks`: the ids
of the entries whose status is `pending` or `processing` and whose id is
truthy, in cache order. -/
def pendingIds (tasks : List Entry) : List String :=
  tasks.filterMap (fun t => if isNonTerminalEntry t then truthyId t else none)

/-- Rendering of a timestamp by `datetime.isoformat()`; the exact string form
is irrelevant to every theorem below, only that it is a function of the
instant. -/
def isoOfTime (n : Nat) : String := toString n

/-- `ImageGenerationDB.task_to_dict`: a dict holding every key, nullable
columns becoming `None` values. -/
def task_to_dict (t : Task) : Entry :=
  ⟨some (some t.id), some (some t.prompt), some (some t.status),
   some t.image_url, some t.error_message,
   some (some (isoOfTime t.created_at)),
   some (t.completed_at.map isoOfTime),
   some t.session_id, some t.run_id⟩

/-- The body of the query loop of `sync_pending_tasks` for one task id:
fetch the row and merge its dict into the cache, skipping unknown ids. -/
def syncStep (store : Store) (cache : List Entry) (task_id : String) : List Entry :=
  match get_task store task_id with
  | none => cache
  | some t => update_task_in_session_state cache (task_to_dict t)

/-- `ImageGeneratorTools.sync_pending_tasks`: collect the non-terminal truthy
ids, re-fetch and merge each, then apply the retention cleanup; the cache is
untouched when there is nothing to synchronize. -/
def sync_pending_tasks (store : Store) (cache : List Entry) : List Entry :=
  let ids := pendingIds cache
  if ids.isEmpty then cache
  else cleanup_old_tasks (ids.foldl (syncStep store) cache)

/-- Everything `ImageGeneratorTools.generate_image` produces: the stores it
leaves behind, whether a background worker thread was started, and the
message returned to the caller. -/
structure GenResult where
  store : Store
  cache : List Entry
  spawned : Bool
  message : String
deriving DecidableEq, Repr

/-- The `task_info` dict recorded by `generate_image` right after creation:
only the four keys `task_id`, `prompt`, `status`, `created_at` are present. -/
def initialEntry (task_id prompt : String) (now : Nat) : Entry :=
  ⟨some (some task_id), some (some prompt), some (some "pending"), none, none,
   some (some (isoOfTime now)), none, none, none⟩

/-- `ImageGeneratorTools.generate_image` with a resolved prompt: when the id
already exists the call returns at once reporting the existing task; otherwise
the row is created, the initial snapshot cached, and a worker spawned. -/
def generate_image (store : Store) (cache : List Entry) (prompt task_id : String)
    (session_id run_id : Option String) (now : Nat) : GenResult :=
  match get_task store task_id with
  | some existing =>
    ⟨store, cache, false, "任务 " ++ task_id ++ " 已存在，状态: " ++ existing.status⟩
  | none =>
    match create_task store task_id prompt session_id run_id now with
    | none => ⟨store, cache, false, "创建任务失败"⟩
    | some store2 =>
      let cache2 := cleanup_old_tasks
        (update_task_in_session_state cache (initialEntry task_id prompt now))
      ⟨store2, cache2, true,
        "图片生成任务已提交，任务ID: " ++ task_id ++
          "。任务正在后台处理中，您可以稍后使用 check_task_status 工具查询进度。"⟩

/-- Outcome of the webhook delivery attempt of `_call_webhook`: an HTTP
response with some status code, or one of the exception classes caught. -/
inductive WebhookResult
  | response (code : Nat)
  | connectError
  | timeoutError
  | otherError
deriving DecidableEq, Repr

/-- `ImageGeneratorTools._call_webhook`: a `200` acknowledgement leaves the
store to the receiver; every other outcome (non-200 code, connection error,
timeout, any other exception) falls back to writing the terminal completed
state directly. -/
def call_webhook (store : Store) (task_id image_url : String) (now : Nat) :
    WebhookResult → Store
  | .response code =>
    if code == 200 then store
    else update_task store task_id (some "completed") (some image_url) none (some now)
  | _ => update_task store task_id (some "completed") (some image_url) none (some now)

/-- Request body of the completion-ingress endpoint
(`ImageGenerationCallback` in `pkg/api/image_generation_api.py`). -/
structure CallbackPayload where
  task_id : String
  status : String
  image_url : String
  completed_at : String
  error_message : Option String
deriving DecidableEq, Repr

/-- The webhook endpoint `image_generation_callback`: `parsed` is the
(deterministic) outcome of `datetime.fromisoformat` on the payload timestamp;
on a parse failure the code falls back to the receipt time `now`.  The update
passes status and image URL unconditionally, the error message when present,
and always a completion time. -/
def image_generation_callback (store : Store) (p : CallbackPayload)
    (parsed : Option Nat) (now : Nat) : Store :=
  update_task store p.task_id (some p.status) (some p.image_url) p.error_message
    (some (parsed.getD now))

/-- The store writes the system can perform, one constructor per call site:
row creation by `generate_image`, the two runner transitions of
`_async_generate_image` (note the failure write carries no `completed_at`),
the notifier fallback write of `_call_webhook`, and the ingress endpoint. -/
inductive Op
  | createOp (task_id prompt : String) (session_id run_id : Option String) (now : Nat)
  | markProcessing (task_id : String)
  | markFailed (task_id msg : String)
  | fallbackComplete (task_id image_url : String) (now : Nat)
  | receiverUpdate (p : CallbackPayload) (parsed : Option Nat) (now : Nat)
deriving Repr

/-- Effect of one operation on the store (a duplicate creation is refused and
leaves the store unchanged, as in `generate_image`). -/
def applyOp (store : Store) : Op → Store
  | .createOp tid prompt sid rid now =>
    match create_task store tid prompt sid rid now with
    | some s2 => s2
    | none => store
  | .markProcessing tid => update_task store tid (some "processing") none none none
  | .markFailed tid msg => update_task store tid (some "failed") none (some msg) none
  | .fallbackComplete tid url now =>
    update_task store tid (some "completed") (some url) none (some now)
  | .receiverUpdate p parsed now => image_generation_callback store p parsed now

/-- A sequence of operations applied to a store. -/
def applyOps (store : Store) (ops : List Op) : Store := ops.foldl applyOp store

/-- The task id an operation addresses. -/
def opTarget : Op → String
  | .createOp tid _ _ _ _ => tid
  | .markProcessing tid => tid
  | .markFailed tid _ => tid
  | .fallbackComplete tid _ _ => tid
  | .receiverUpdate p _ _ => p.task_id

/-- One legal step of the status chain pending→processing→(completed or
failed); terminal statuses have no outgoing step. -/
def stepOk (a b : String) : Prop :=
  (a = "pending" ∧ b = "processing") ∨
    (a = "processing" ∧ (b = "completed" ∨ b = "failed"))

instance stepOk.instDecidable : DecidableRel stepOk := fun a b =>
  decidable_of_iff ((a = "pending" ∧ b = "processing") ∨
    (a = "processing" ∧ (b = "completed" ∨ b = "failed"))) Iff.rfl

/-- How far the worker of one task has progressed, one constructor per point
at which the host process can stop observing the worker of
`_async_generate_image`: just submitted, marked processing, completed through
the receiver acknowledging the webhook, completed through the fallback write,
or failed locally. -/
inductive WorkerRun
  | submitted
  | started
  | finishedReceiver
  | finishedFallback
  | failedLocally
deriving Repr

/-- The store writes the system itself issues for one task, in the program
order of `generate_image`, `_async_generate_image` and `_call_webhook`,
cut off at the given progress point.  The receiver case carries the exact
payload `_call_webhook` builds (status `completed`, the image URL and an ISO
completion time that parses back to the instant it rendered). -/
def runnerOps (tid prompt url msg : String) (sid rid : Option String)
    (t0 t1 : Nat) : WorkerRun → List Op
  | .submitted => [.createOp tid prompt sid rid t0]
  | .started => [.createOp tid prompt sid rid t0, .markProcessing tid]
  | .finishedReceiver =>
    [.createOp tid prompt sid rid t0, .markProcessing tid,
     .receiverUpdate ⟨tid, "completed", url, isoOfTime t1, none⟩ (some t1) t1]
  | .finishedFallback =>
    [.createOp tid prompt sid rid t0, .markProcessing tid,
     .fallbackComplete tid url t1]
  | .failedLocally =>
    [.createOp tid prompt sid rid t0, .markProcessing tid, .markFailed tid msg]

/-- The statuses the row of `tid` shows after each successive operation. -/
def statusTrace (tid : String) (store : Store) : List Op → List String
  | [] => []
  | op :: rest =>
    let store2 := applyOp store op
    (match get_task store2 tid with
     | some t => [t.status]
     | none => []) ++ statusTrace tid store2 rest

/-- A cache entry holding only id, a non-terminal status and a creation time
(the shape `generate_image` writes). -/
def pendEntry (tid c : String) : Entry :=
  ⟨some (some tid), none, some (some "pending"), none, none, some (some c),
   none, none, none⟩

/-- A cache entry holding only id, a terminal status and a creation time. -/
def termEntry (tid c : String) : Entry :=
  ⟨some (some tid), none, some (some "completed"), none, none, some (some c),
   none, none, none⟩

/-- The cache of the eviction example: 5 non-terminal entries created at
instants 90 to 94 followed by 30 terminal entries created at 10 to 39. -/
def evictionInput : List Entry :=
  (List.range 5).map (fun i => pendEntry ("p" ++ toString i) (toString (90 + i))) ++
    (List.range 30).map (fun i => termEntry ("t" ++ toString i) (toString (10 + i)))

/-- The expected eviction output: the 5 non-terminal entries followed by the
15 most recently created terminal entries, newest first. -/
def evictionExpected : List Entry :=
  (List.range 5).map (fun i => pendEntry ("p" ++ toString i) (toString (90 + i))) ++
    (List.range 15).map (fun i => termEntry ("t" ++ toString (29 - i)) (toString (39 - i)))

/-- A cache of 21 terminal entries in which the last two share a creation
time, to exhibit the stable tie-break. -/
def tieInput : List Entry :=
  (List.range 19).map (fun i => termEntry ("t" ++ toString i) (toString (50 + i))) ++
    [termEntry "a" "40", termEntry "b" "40"]

/-- The store of the sync counterexample: one completed row. -/
def dupStore : Store := [⟨"t", "p", "completed", some "u", none, 50, some 60, none, none⟩]

/-- The cache of the sync counterexample: two entries carrying the same id
`"t"`, both still pending, plus 19 old terminal fillers so that the retention
cleanup runs and reorders the cache. -/
def dupCache : List Entry :=
  [pendEntry "t" "50", pendEntry "t" "49"] ++
    (List.range 19).map (fun i => termEntry ("f" ++ toString i) (toString (10 + i)))

/-- The distinct-id discipline every cache built by the system's own upsert
satisfies: no two entries carry the same truthy task id. -/
def DistinctIds (cache : List Entry) : Prop :=
  (cache.filterMap truthyId).Nodup

/-- Pointwise refresh of one entry against the store, used to characterize
the query loop of `sync_pending_tasks` on a distinct-id cache: an entry whose
truthy id is among the ids being synchronized and is found in the store is
replaced by the fetched dict, every other entry is untouched. -/
def refreshIf (store : Store) (ids : List String) (e : Entry) : Entry :=
  match truthyId e with
  | none => e
  | some tid =>
    if tid ∈ ids then
      match get_task store tid with
      | none => e
      | some t => task_to_dict t
    else e

/-- The part of the terminal-timestamp invariant that does survive every
operation: a row showing status `completed` always carries a completion
time. -/
def StoreInv (s : Store) : Prop :=
  ∀ t ∈ s, t.status = "completed" → t.completed_at ≠ none

/-- A cache entry with no status key at all (it never reached any status,
terminal or not). -/
def statuslessEntry : Entry :=
  ⟨some (some "x"), none, none, none, none, some (some "00"), none, none, none⟩

/-- A 21-entry cache: 20 recent terminal entries plus the status-less entry,
whose creation time is the oldest. -/
def statuslessCache : List Entry :=
  (List.range 20).map (fun i => termEntry ("t" ++ toString i) (toString (50 + i))) ++
    [statuslessEntry]

/-- Expected result of evicting `tieInput`: the 19 distinct-keyed terminal
entries in descending key order, then — of the two entries tied at `"40"` —
the one that came first in the input. -/
def tieExpected : List Entry :=
  (List.range 19).map (fun i => termEntry ("t" ++ toString (18 - i)) (toString (68 - i))) ++
    [termEntry "a" "40"]

/-! Helper lemmas about the store operations. -/

theorem applyUpdate_id (t : Task) (s u e : Option String) (c : Option Nat) :
    (applyUpdate t s u e c).id = t.id := rfl

theorem get_task_id {store : Store} {tid : String} {t : Task}
    (h : get_task store tid = some t) : t.id = tid := by
  have h2 := List.find?_some h
  simpa using h2

theorem get_task_update_task (store : Store) (tid tid2 : String)
    (s u e : Option String) (c : Option Nat) :
    get_task (update_task store tid2 s u e c) tid =
      (get_task store tid).map
        (fun t => if t.id == tid2 then applyUpdate t s u e c else t) := by
  unfold get_task update_task
  rw [List.find?_map]
  have hp : ((fun t : Task => t.id == tid) ∘
      fun t => if t.id == tid2 then applyUpdate t s u e c else t) =
      fun t : Task => t.id == tid := by
    funext t
    by_cases h : t.id == tid2 <;> simp [h, Function.comp, applyUpdate_id]
  rw [hp]

theorem applyUpdate_idem (t : Task) (s u e : Option String) (c : Option Nat) :
    applyUpdate (applyUpdate t s u e c) s u e c = applyUpdate t s u e c := by
  cases s <;> cases u <;> cases e <;> cases c <;> rfl

theorem update_task_idem (store : Store) (tid : String) (s u e : Option String)
    (c : Option Nat) :
    update_task (update_task store tid s u e c) tid s u e c =
      update_task store tid s u e c := by
  unfold update_task
  rw [List.map_map]
  apply List.map_congr_left
  intro t _
  by_cases h : t.id == tid <;>
    simp [Function.comp, h, applyUpdate_id, applyUpdate_idem]

/-! The claims. -/

/-- C4: calling `generate_image` with a task id already present in the store
creates no second row, spawns no worker, leaves both the store and the
session cache unchanged, and returns the message reporting the existing task
and its current status. -/
theorem C4_duplicate_submit (store : Store) (cache : List Entry)
    (prompt task_id : String) (sid rid : Option String) (now : Nat) (t : Task)
    (h : get_task store task_id = some t) :
    generate_image store cache prompt task_id sid rid now =
      ⟨store, cache, false, "任务 " ++ task_id ++ " 已存在，状态: " ++ t.status⟩ := by
  simp [generate_image, h]

/-- Witness for C4 at a concrete one-row store. -/
theorem C4_witness :
    generate_image [⟨"a", "p", "pending", none, none, 0, none, none, none⟩] [] "q" "a"
        none none 3 =
      ⟨[⟨"a", "p", "pending", none, none, 0, none, none, none⟩], [], false,
        "任务 " ++ "a" ++ " 已存在，状态: " ++ "pending"⟩ :=
  C4_duplicate_submit _ _ _ _ _ _ _
    ⟨"a", "p", "pending", none, none, 0, none, none, none⟩ (by decide)

/-- C3: when the task row exists, any failing webhook outcome (a non-200
response, a connection error, a timeout, or any other exception) makes
`_call_webhook` write status `completed`, the result reference and a
completion timestamp directly to the store. -/
theorem C3_fallback_writes_completed (store : Store) (tid url : String) (now : Nat)
    (r : WebhookResult) (t : Task) (hfail : r ≠ WebhookResult.response 200)
    (h : get_task store tid = some t) :
    get_task (call_webhook store tid url now r) tid =
      some { t with status := "completed", image_url := some url, completed_at := some now } := by
  have hid : t.id = tid := get_task_id h
  have key : get_task (update_task store tid (some "completed") (some url) none
      (some now)) tid =
      some { t with status := "completed", image_url := some url, completed_at := some now } := by
    rw [get_task_update_task, h]
    simp [hid, applyUpdate]
  cases r with
  | response code =>
    have hc : (code == 200) = false := by
      simp only [beq_eq_false_iff_ne, ne_eq]
      intro hcode
      exact hfail (by rw [hcode])
    simpa [call_webhook, hc] using key
  | connectError => simpa [call_webhook] using key
  | timeoutError => simpa [call_webhook] using key
  | otherError => simpa [call_webhook] using key

/-- Witness for C3: a timeout on a processing row of a concrete store. -/
theorem C3_witness :
    get_task (call_webhook [⟨"t", "p", "processing", none, none, 0, none, none, none⟩]
        "t" "u" 9 WebhookResult.timeoutError) "t" =
      some ⟨"t", "p", "completed", some "u", none, 0, some 9, none, none⟩ :=
  C3_fallback_writes_completed _ _ _ _ _
    ⟨"t", "p", "processing", none, none, 0, none, none, none⟩ (by decide) (by decide)

/-- C7 fails as stated: the endpoint accepts a payload whose `completed_at`
does not parse and falls back to the receipt time, so delivering the
identical payload twice (at receipt times 1 and 2) stores two different
rows. -/
theorem C7_counterexample :
    image_generation_callback
        (image_generation_callback
          [⟨"t", "p", "processing", none, none, 0, none, none, none⟩]
          ⟨"t", "completed", "u", "not-a-timestamp", none⟩ none 1)
        ⟨"t", "completed", "u", "not-a-timestamp", none⟩ none 2 ≠
      image_generation_callback
        [⟨"t", "p", "processing", none, none, 0, none, none, none⟩]
        ⟨"t", "completed", "u", "not-a-timestamp", none⟩ none 1 := by
  decide

/-- C7 amended: for every payload whose completion timestamp parses, applying
the endpoint twice leaves exactly the store of the first application,
whatever the two receipt times are. -/
theorem C7_amended_idempotent (store : Store) (p : CallbackPayload)
    (ts now1 now2 : Nat) :
    image_generation_callback (image_generation_callback store p (some ts) now1)
        p (some ts) now2 =
      image_generation_callback store p (some ts) now1 := by
  simp [image_generation_callback, update_task_idem]

/-- C1 fails as stated: the runner's local-failure write
(`_async_generate_image`, the `except` branch) sets status `failed` without
any `completed_at`, and the ingress endpoint always writes a completion time
even for a non-terminal payload status, so `completed_at` presence is not
equivalent to terminal status in either direction. -/
theorem C1_counterexample :
    (get_task (applyOps [] [Op.createOp "t" "p" none none 0, Op.markProcessing "t",
        Op.markFailed "t" "boom"]) "t").map (fun t => (t.status, t.completed_at)) =
      some ("failed", none) ∧
    (get_task (applyOps [] [Op.createOp "t" "p" none none 0,
        Op.receiverUpdate ⟨"t", "processing", "u", "bad", none⟩ none 7]) "t").map
        (fun t => (t.status, t.completed_at)) = some ("processing", some 7) := by
  decide

theorem storeInv_applyOp (s : Store) (op : Op) (h : StoreInv s) :
    StoreInv (applyOp s op) := by
  cases op with
  | createOp tid p sid rid now =>
    by_cases hex : (get_task s tid).isSome
    · simpa [applyOp, create_task, hex] using h
    · intro t ht hc
      rw [show applyOp s (Op.createOp tid p sid rid now) =
          s ++ [⟨tid, p, "pending", none, none, now, none, sid, rid⟩] from by
        simp [applyOp, create_task, hex]] at ht
      rcases List.mem_append.1 ht with h1 | h1
      · exact h t h1 hc
      · have ht2 : t = ⟨tid, p, "pending", none, none, now, none, sid, rid⟩ := by
          simpa using h1
        subst ht2
        simp at hc
  | markProcessing tid =>
    intro t ht hc
    simp only [applyOp, update_task, List.mem_map] at ht
    obtain ⟨t0, ht0, rfl⟩ := ht
    by_cases hid : t0.id == tid
    · rw [if_pos hid] at hc
      simp [applyUpdate] at hc
    · rw [if_neg hid] at hc ⊢
      exact h t0 ht0 hc
  | markFailed tid msg =>
    intro t ht hc
    simp only [applyOp, update_task, List.mem_map] at ht
    obtain ⟨t0, ht0, rfl⟩ := ht
    by_cases hid : t0.id == tid
    · rw [if_pos hid] at hc
      simp [applyUpdate] at hc
    · rw [if_neg hid] at hc ⊢
      exact h t0 ht0 hc
  | fallbackComplete tid url now =>
    intro t ht hc
    simp only [applyOp, update_task, List.mem_map] at ht
    obtain ⟨t0, ht0, rfl⟩ := ht
    by_cases hid : t0.id == tid
    · rw [if_pos hid]
      simp [applyUpdate]
    · rw [if_neg hid] at hc ⊢
      exact h t0 ht0 hc
  | receiverUpdate p parsed now =>
    intro t ht hc
    simp only [applyOp, image_generation_callback, update_task, List.mem_map] at ht
    obtain ⟨t0, ht0, rfl⟩ := ht
    by_cases hid : t0.id == p.task_id
    · rw [if_pos hid]
      simp [applyUpdate]
    · rw [if_neg hid] at hc ⊢
      exact h t0 ht0 hc

theorem storeInv_applyOps (s : Store) (ops : List Op) (h : StoreInv s) :
    StoreInv (applyOps s ops) := by
  induction ops generalizing s with
  | nil => exact h
  | cons op rest ih =>
    simp only [applyOps, List.foldl_cons]
    exact ih (applyOp s op) (storeInv_applyOp s op h)

/-- C1 amended: over every operation sequence from an empty store, a row with
status `completed` always carries a `completed_at`; the converse and the
`failed` direction fail as the counterexample shows. -/
theorem C1_amended_completed_has_timestamp (ops : List Op) (t : Task)
    (h : t ∈ applyOps [] ops) (hc : t.status = "completed") :
    t.completed_at ≠ none :=
  storeInv_applyOps [] ops (by intro t ht; simp at ht) t h hc

/-- Witness for the amended C1 on the fallback-completed run. -/
theorem C1_witness :
    (⟨"t", "p", "completed", some "u", none, 0, some 5, none, none⟩ : Task) ∈
        applyOps [] [Op.createOp "t" "p" none none 0, Op.markProcessing "t",
          Op.fallbackComplete "t" "u" 5] ∧
      (⟨"t", "p", "completed", some "u", none, 0, some 5, none, none⟩ : Task).completed_at ≠
        none :=
  ⟨by decide,
    C1_amended_completed_has_timestamp
      [Op.createOp "t" "p" none none 0, Op.markProcessing "t",
        Op.fallbackComplete "t" "u" 5]
      ⟨"t", "p", "completed", some "u", none, 0, some 5, none, none⟩ (by decide) rfl⟩

/-- C2 fails as stated: `update_task` has no transition guard, so a payload
sent to the completion-ingress endpoint moves a `completed` row back to
`pending`. -/
theorem C2_counterexample :
    (get_task (applyOps [] [Op.createOp "t" "p" none none 0, Op.markProcessing "t",
        Op.fallbackComplete "t" "u" 5]) "t").map Task.status = some "completed" ∧
    (get_task (applyOps [] [Op.createOp "t" "p" none none 0, Op.markProcessing "t",
        Op.fallbackComplete "t" "u" 5,
        Op.receiverUpdate ⟨"t", "pending", "u", "x", none⟩ (some 6) 6]) "t").map
        Task.status = some "pending" := by
  decide

theorem get_task_append_single (store : Store) (r : Task) (tid : String)
    (h : get_task store tid = none) :
    get_task (store ++ [r]) tid = if r.id == tid then some r else none := by
  unfold get_task at h ⊢
  rw [List.find?_append, h]
  cases hr : r.id == tid <;> simp [List.find?_cons, hr]

theorem applyOp_create_fresh (store : Store) (tid p : String)
    (sid rid : Option String) (now : Nat) (h : get_task store tid = none) :
    applyOp store (Op.createOp tid p sid rid now) =
      store ++ [⟨tid, p, "pending", none, none, now, none, sid, rid⟩] := by
  simp [applyOp, create_task, h]

theorem get_task_update_self (store : Store) (tid : String)
    (s u e : Option String) (c : Option Nat) (R : Task)
    (h : get_task store tid = some R) :
    get_task (update_task store tid s u e c) tid = some (applyUpdate R s u e c) := by
  rw [get_task_update_task, h]
  have hid := get_task_id h
  simp [hid]

theorem get_task_update_other (store : Store) (tid tid2 : String)
    (s u e : Option String) (c : Option Nat) (h : tid2 ≠ tid) :
    get_task (update_task store tid2 s u e c) tid = get_task store tid := by
  rw [get_task_update_task]
  cases hv : get_task store tid with
  | none => rfl
  | some t =>
    have hid := get_task_id hv
    have hne : (t.id == tid2) = false := by
      rw [hid]
      exact beq_eq_false_iff_ne.mpr (Ne.symm h)
    rw [Option.map_some', if_neg (by simp [hne])]

theorem statusTrace_cons (tid : String) (store : Store) (op : Op) (rest : List Op) :
    statusTrace tid store (op :: rest) =
      (match get_task (applyOp store op) tid with
       | some t => [t.status]
       | none => []) ++ statusTrace tid (applyOp store op) rest := rfl

theorem get_task_applyOp_other (store : Store) (op : Op) (tid : String)
    (h : opTarget op ≠ tid) :
    get_task (applyOp store op) tid = get_task store tid := by
  cases op with
  | createOp tid2 p sid rid now =>
    have h2 : tid2 ≠ tid := h
    cases hex : get_task store tid2 with
    | some t => simp [applyOp, create_task, hex]
    | none =>
      rw [applyOp_create_fresh store tid2 p sid rid now hex]
      unfold get_task
      rw [List.find?_append]
      have hne : (tid2 == tid) = false := beq_eq_false_iff_ne.mpr h2
      simp [List.find?_cons, hne]
  | markProcessing tid2 => exact get_task_update_other _ _ _ _ _ _ _ h
  | markFailed tid2 msg => exact get_task_update_other _ _ _ _ _ _ _ h
  | fallbackComplete tid2 url now => exact get_task_update_other _ _ _ _ _ _ _ h
  | receiverUpdate p parsed now =>
    simpa [applyOp, image_generation_callback] using
      get_task_update_other store tid p.task_id (some p.status) (some p.image_url)
        p.error_message (some (parsed.getD now)) h

/-- C2 amended: the ordering claim holds for the writes the system itself
issues — along every per-task worker run the observed statuses form a prefix
of pending→processing→(completed or failed), each consecutive pair is a legal
chain step, and operations addressed to other ids never change the task's row
— but the ingress endpoint applies any payload status unguarded, so an
external payload can move a terminal row (the counterexample sets a completed
row back to pending). -/
theorem C2_amended_runner_traces :
    (∀ (run : WorkerRun) (store : Store) (tid prompt url msg : String)
        (sid rid : Option String) (t0 t1 : Nat),
        get_task store tid = none →
        statusTrace tid store (runnerOps tid prompt url msg sid rid t0 t1 run) ∈
            ([["pending"], ["pending", "processing"],
              ["pending", "processing", "completed"],
              ["pending", "processing", "failed"]] : List (List String)) ∧
          List.Chain' stepOk
            (statusTrace tid store (runnerOps tid prompt url msg sid rid t0 t1 run))) ∧
    (∀ (store : Store) (op : Op) (tid : String), opTarget op ≠ tid →
        get_task (applyOp store op) tid = get_task store tid) := by
  constructor
  · intro run store tid prompt url msg sid rid t0 t1 h
    have e1 := applyOp_create_fresh store tid prompt sid rid t0 h
    have g1 : get_task (store ++ [⟨tid, prompt, "pending", none, none, t0, none, sid, rid⟩])
        tid = some ⟨tid, prompt, "pending", none, none, t0, none, sid, rid⟩ := by
      rw [get_task_append_single store _ tid h]
      simp
    cases run with
    | submitted =>
      have ht : statusTrace tid store (runnerOps tid prompt url msg sid rid t0 t1
          WorkerRun.submitted) = ["pending"] := by
        simp only [runnerOps]
        rw [statusTrace_cons, e1, g1]
        rfl
      rw [ht]
      exact ⟨by decide, by simp [List.chain'_cons, stepOk]⟩
    | started =>
      have ht : statusTrace tid store (runnerOps tid prompt url msg sid rid t0 t1
          WorkerRun.started) = ["pending", "processing"] := by
        simp only [runnerOps]
        rw [statusTrace_cons, e1, statusTrace_cons]
        simp only [applyOp]
        rw [g1, get_task_update_self _ _ (some "processing") none none none _ g1]
        rfl
      rw [ht]
      exact ⟨by decide, by simp [List.chain'_cons, stepOk]⟩
    | finishedReceiver =>
      have ht : statusTrace tid store (runnerOps tid prompt url msg sid rid t0 t1
          WorkerRun.finishedReceiver) = ["pending", "processing", "completed"] := by
        simp only [runnerOps]
        rw [statusTrace_cons, e1, statusTrace_cons, statusTrace_cons]
        simp only [applyOp, image_generation_callback]
        rw [g1, get_task_update_self _ _ (some "processing") none none none _ g1,
          get_task_update_self _ _ _ _ _ _ _
            (get_task_update_self _ _ (some "processing") none none none _ g1)]
        rfl
      rw [ht]
      exact ⟨by decide, by simp [List.chain'_cons, stepOk]⟩
    | finishedFallback =>
      have ht : statusTrace tid store (runnerOps tid prompt url msg sid rid t0 t1
          WorkerRun.finishedFallback) = ["pending", "processing", "completed"] := by
        simp only [runnerOps]
        rw [statusTrace_cons, e1, statusTrace_cons, statusTrace_cons]
        simp only [applyOp]
        rw [g1, get_task_update_self _ _ (some "processing") none none none _ g1,
          get_task_update_self _ _ _ _ _ _ _
            (get_task_update_self _ _ (some "processing") none none none _ g1)]
        rfl
      rw [ht]
      exact ⟨by decide, by simp [List.chain'_cons, stepOk]⟩
    | failedLocally =>
      have ht : statusTrace tid store (runnerOps tid prompt url msg sid rid t0 t1
          WorkerRun.failedLocally) = ["pending", "processing", "failed"] := by
        simp only [runnerOps]
        rw [statusTrace_cons, e1, statusTrace_cons, statusTrace_cons]
        simp only [applyOp]
        rw [g1, get_task_update_self _ _ (some "processing") none none none _ g1,
          get_task_update_self _ _ _ _ _ _ _
            (get_task_update_self _ _ (some "processing") none none none _ g1)]
        rfl
      rw [ht]
      exact ⟨by decide, by simp [List.chain'_cons, stepOk]⟩
  · intro store op tid h
    exact get_task_applyOp_other store op tid h

/-! Lemmas about the stable descending sort. -/

theorem mem_insertDescBy {α : Type} (le : α → α → Bool) (x a : α) :
    ∀ l : List α, a ∈ insertDescBy le x l ↔ a = x ∨ a ∈ l
  | [] => by simp [insertDescBy]
  | y :: ys => by
    by_cases h : le y x
    · simp [insertDescBy, h]
    · simp only [insertDescBy, h, Bool.false_eq_true, if_false, List.mem_cons,
        mem_insertDescBy le x a ys]
      tauto

theorem perm_insertDescBy {α : Type} (le : α → α → Bool) (x : α) :
    ∀ l : List α, List.Perm (insertDescBy le x l) (x :: l)
  | [] => by simp [insertDescBy]
  | y :: ys => by
    by_cases h : le y x
    · simp [insertDescBy, h]
    · rw [insertDescBy, if_neg (by simp [h])]
      exact ((perm_insertDescBy le x ys).cons y).trans (List.Perm.swap x y ys)

theorem sortDescBy_perm {α : Type} (le : α → α → Bool) :
    ∀ l : List α, List.Perm (sortDescBy le l) l
  | [] => List.Perm.refl []
  | a :: l => by
    simp only [sortDescBy, List.foldr_cons]
    exact (perm_insertDescBy le a _).trans ((sortDescBy_perm le l).cons a)

theorem pairwise_insertDescBy {α : Type} (le : α → α → Bool)
    (htot : ∀ a b, le a b = false → le b a = true)
    (htrans : ∀ a b c, le a b = true → le b c = true → le a c = true) (x : α) :
    ∀ l : List α, List.Pairwise (fun a b => le b a = true) l →
      List.Pairwise (fun a b => le b a = true) (insertDescBy le x l)
  | [], _ => by simp [insertDescBy]
  | y :: ys, hp => by
    by_cases h : le y x
    · rw [insertDescBy, if_pos h]
      refine List.Pairwise.cons ?_ hp
      intro z hz
      rcases List.mem_cons.1 hz with rfl | hz2
      · exact h
      · exact htrans z y x (List.rel_of_pairwise_cons hp hz2) h
    · rw [insertDescBy, if_neg (by simp [h])]
      refine List.Pairwise.cons ?_
        (pairwise_insertDescBy le htot htrans x ys hp.of_cons)
      intro z hz
      rcases (mem_insertDescBy le x z ys).1 hz with rfl | hz2
      · exact htot y z (Bool.eq_false_iff.mpr h)
      · exact List.rel_of_pairwise_cons hp hz2

theorem sortDescBy_pairwise {α : Type} (le : α → α → Bool)
    (htot : ∀ a b, le a b = false → le b a = true)
    (htrans : ∀ a b c, le a b = true → le b c = true → le a c = true) :
    ∀ l : List α, List.Pairwise (fun a b => le b a = true) (sortDescBy le l)
  | [] => List.Pairwise.nil
  | a :: l => by
    simp only [sortDescBy, List.foldr_cons]
    exact pairwise_insertDescBy le htot htrans a _
      (sortDescBy_pairwise le htot htrans l)

theorem charsLe_total : ∀ as bs : List Char, charsLe as bs = false →
    charsLe bs as = true
  | [], bs => by simp [charsLe]
  | a :: as, [] => by simp [charsLe]
  | a :: as, b :: bs => by
    intro h
    by_cases hab : a.toNat < b.toNat
    · simp [charsLe, hab] at h
    · by_cases hba : b.toNat < a.toNat
      · simp [charsLe, hba]
      · simp only [charsLe, if_neg hab, if_neg hba] at h
        simpa [charsLe, if_neg hab, if_neg hba] using charsLe_total as bs h

theorem charsLe_trans : ∀ as bs cs : List Char, charsLe as bs = true →
    charsLe bs cs = true → charsLe as cs = true
  | [], _, _, _, _ => rfl
  | a :: as, [], cs, h1, _ => by simp [charsLe] at h1
  | a :: as, b :: bs, [], _, h2 => by simp [charsLe] at h2
  | a :: as, b :: bs, c :: cs, h1, h2 => by
    by_cases hab : a.toNat < b.toNat
    · by_cases hbc : b.toNat < c.toNat
      · simp [charsLe, show a.toNat < c.toNat by omega]
      · by_cases hcb : c.toNat < b.toNat
        · simp [charsLe, hbc, hcb] at h2
        · simp [charsLe, show a.toNat < c.toNat by omega]
    · by_cases hba : b.toNat < a.toNat
      · simp [charsLe, hab, hba] at h1
      · by_cases hbc : b.toNat < c.toNat
        · simp [charsLe, show a.toNat < c.toNat by omega]
        · by_cases hcb : c.toNat < b.toNat
          · simp [charsLe, hbc, hcb] at h2
          · simp only [charsLe, if_neg hab, if_neg hba] at h1
            simp only [charsLe, if_neg hbc, if_neg hcb] at h2
            simp only [charsLe, if_neg (show ¬ a.toNat < c.toNat by omega),
              if_neg (show ¬ c.toNat < a.toNat by omega)]
            exact charsLe_trans as bs cs h1 h2

theorem strLe_total (a b : String) (h : strLe a b = false) : strLe b a = true :=
  charsLe_total a.data b.data h

theorem strLe_trans (a b c : String) (h1 : strLe a b = true)
    (h2 : strLe b c = true) : strLe a c = true :=
  charsLe_trans a.data b.data c.data h1 h2

theorem ble_created_total (a b : Task) (h : Nat.ble a.created_at b.created_at = false) :
    Nat.ble b.created_at a.created_at = true := by
  have h2 : ¬ a.created_at ≤ b.created_at :=
    Nat.not_le_of_not_ble_eq_true (by simp [h])
  simp only [Nat.ble_eq]
  omega

theorem ble_created_trans (a b c : Task) (h1 : Nat.ble a.created_at b.created_at = true)
    (h2 : Nat.ble b.created_at c.created_at = true) :
    Nat.ble a.created_at c.created_at = true := by
  simp only [Nat.ble_eq] at h1 h2 ⊢
  omega

/-- C9: with any filters, a limit and an offset, `list_tasks` returns at most
`limit` rows, the page is ordered by `created_at` descending, and the
returned total is the number of matching rows whatever limit and offset
are used. -/
theorem C9_list_pagination (store : Store) (status sid rid : Option String)
    (L offset : Nat) (hL : 1 ≤ L ∧ L ≤ 1000) :
    (list_tasks store status sid rid L offset).2.length ≤ L ∧
      List.Pairwise (fun a b : Task => b.created_at ≤ a.created_at)
        (list_tasks store status sid rid L offset).2 ∧
      (∀ L2 off2 : Nat, (list_tasks store status sid rid L2 off2).1 =
        (store.filter (fun t => matchesFilters t status sid rid)).length) := by
  refine ⟨?_, ?_, ?_⟩
  · exact List.length_take_le _ _
  · have hp := sortDescBy_pairwise
      (fun a b : Task => Nat.ble a.created_at b.created_at)
      ble_created_total ble_created_trans
      (store.filter (fun t => matchesFilters t status sid rid))
    have hp2 : List.Pairwise (fun a b : Task => b.created_at ≤ a.created_at)
        (sortDescBy (fun a b : Task => Nat.ble a.created_at b.created_at)
          (store.filter (fun t => matchesFilters t status sid rid))) :=
      hp.imp (fun hab => Nat.le_of_ble_eq_true hab)
    exact hp2.sublist ((List.take_sublist _ _).trans (List.drop_sublist _ _))
  · intro L2 off2
    rfl

/-- Witness for C9 on a two-row store with a status filter and limit 1. -/
theorem C9_witness :
    (list_tasks [⟨"a", "p", "completed", none, none, 1, some 2, none, none⟩,
          ⟨"b", "q", "completed", none, none, 3, some 4, none, none⟩]
        (some "completed") none none 1 0).2.length ≤ 1 ∧
      List.Pairwise (fun a b : Task => b.created_at ≤ a.created_at)
        (list_tasks [⟨"a", "p", "completed", none, none, 1, some 2, none, none⟩,
            ⟨"b", "q", "completed", none, none, 3, some 4, none, none⟩]
          (some "completed") none none 1 0).2 ∧
      (list_tasks [⟨"a", "p", "completed", none, none, 1, some 2, none, none⟩,
          ⟨"b", "q", "completed", none, none, 3, some 4, none, none⟩]
        (some "completed") none none 7 3).1 =
        ([⟨"a", "p", "completed", none, none, 1, some 2, none, none⟩,
          ⟨"b", "q", "completed", none, none, 3, some 4, none, none⟩].filter
          (fun t => matchesFilters t (some "completed") none none)).length := by
  have h := C9_list_pagination
    [⟨"a", "p", "completed", none, none, 1, some 2, none, none⟩,
      ⟨"b", "q", "completed", none, none, 3, some 4, none, none⟩]
    (some "completed") none none 1 0 (by decide)
  exact ⟨h.1, h.2.1, h.2.2 7 3⟩

/-- C5: eviction on an over-cap cache keeps every non-terminal entry, invents
no entry, keeps exactly the non-terminal entries when their count alone
reaches the cap, otherwise fills the cache up to exactly the cap, never
keeps a terminal entry created less recently than a discarded terminal
entry, and on the concrete example of 5 non-terminal plus 30 terminal
entries returns exactly the 5 non-terminal plus the 15 most recently created
terminal entries (the tie example showing the stable order). -/
theorem C5_eviction (tasks : List Entry)
    (h : MAX_TASKS_IN_SESSION_STATE < tasks.length) :
    (∀ e ∈ tasks, isNonTerminalEntry e = true → e ∈ cleanup_old_tasks tasks) ∧
      (∀ e ∈ cleanup_old_tasks tasks, e ∈ tasks) ∧
      (MAX_TASKS_IN_SESSION_STATE ≤ (tasks.filter isNonTerminalEntry).length →
        cleanup_old_tasks tasks = tasks.filter isNonTerminalEntry) ∧
      ((tasks.filter isNonTerminalEntry).length < MAX_TASKS_IN_SESSION_STATE →
        (cleanup_old_tasks tasks).length = MAX_TASKS_IN_SESSION_STATE) ∧
      (∀ k1 ∈ cleanup_old_tasks tasks, ∀ d ∈ tasks, isNonTerminalEntry k1 = false →
        isNonTerminalEntry d = false → d ∉ cleanup_old_tasks tasks →
        strLe (entryKey d) (entryKey k1) = true) ∧
      cleanup_old_tasks evictionInput = evictionExpected ∧
      cleanup_old_tasks tieInput = tieExpected := by
  have hnot : ¬ tasks.length ≤ MAX_TASKS_IN_SESSION_STATE := Nat.not_le.mpr h
  set p := tasks.filter isNonTerminalEntry with hp
  set c := tasks.filter (fun t => !isNonTerminalEntry t) with hcdef
  set s := sortDescBy (fun a b => strLe (entryKey a) (entryKey b)) c with hsdef
  set n := (max 0 ((MAX_TASKS_IN_SESSION_STATE : Int) - p.length)).toNat with hndef
  have hres : cleanup_old_tasks tasks = p ++ s.take n := by
    rw [cleanup_old_tasks, if_neg hnot]
  have hperm : List.Perm s c :=
    hsdef ▸ sortDescBy_perm (fun a b => strLe (entryKey a) (entryKey b)) c
  refine ⟨?_, ?_, ?_, ?_, ?_, by decide, by decide⟩
  · intro e he hne
    rw [hres]
    exact List.mem_append_left _ (List.mem_filter.mpr ⟨he, hne⟩)
  · intro e he
    rw [hres] at he
    rcases List.mem_append.1 he with h1 | h1
    · exact List.mem_of_mem_filter h1
    · exact List.mem_of_mem_filter (hperm.subset (List.take_subset _ _ h1))
  · intro hge
    have h0 : ((MAX_TASKS_IN_SESSION_STATE : Int) - p.length) ≤ 0 := by
      have h20 : MAX_TASKS_IN_SESSION_STATE ≤ p.length := hge
      omega
    have hn0 : n = 0 := by
      rw [hndef, max_eq_left h0]
      rfl
    rw [hres, hn0]
    simp
  · intro hlt
    have hslen : s.length = c.length := hperm.length_eq
    have hsplit : p.length + c.length = tasks.length := by
      rw [hp, hcdef]
      have h2 := (List.filter_append_perm isNonTerminalEntry tasks).length_eq
      simpa using h2
    have hn : n = MAX_TASKS_IN_SESSION_STATE - p.length := by
      have hge0 : (0 : Int) ≤ (MAX_TASKS_IN_SESSION_STATE : Int) - p.length := by
        have := hlt
        simp only [MAX_TASKS_IN_SESSION_STATE] at this ⊢
        omega
      rw [hndef, max_eq_right hge0]
      simp only [MAX_TASKS_IN_SESSION_STATE] at hlt ⊢
      omega
    rw [hres, List.length_append, List.length_take, hn]
    simp only [MAX_TASKS_IN_SESSION_STATE] at h hlt ⊢
    omega
  · intro k1 hk1 d hd hkterm hdterm hdnot
    rw [hres] at hk1 hdnot
    rcases List.mem_append.1 hk1 with h1 | h1
    · have h2 := (List.mem_filter.1 h1).2
      rw [hkterm] at h2
      cases h2
    · have hdc : d ∈ c := List.mem_filter.mpr ⟨hd, by simp [hdterm]⟩
      have hds : d ∈ s := hperm.symm.subset hdc
      have hdd : d ∈ s.drop n := by
        rcases List.mem_append.1 ((List.take_append_drop n s) ▸ hds) with h2 | h2
        · exact absurd (List.mem_append_right p h2) hdnot
        · exact h2
      have hpair : List.Pairwise
          (fun a b => strLe (entryKey b) (entryKey a) = true) s :=
        hsdef ▸ sortDescBy_pairwise (fun a b => strLe (entryKey a) (entryKey b))
          (fun a b hf => strLe_total (entryKey a) (entryKey b) hf)
          (fun a b c h1 h2 =>
            strLe_trans (entryKey a) (entryKey b) (entryKey c) h1 h2) c
      rw [← List.take_append_drop n s] at hpair
      obtain ⟨-, -, hcross⟩ := List.pairwise_append.1 hpair
      exact hcross k1 h1 d hdd

/-- C6: the cache upsert merges by task id — when an entry carries the
update's task id, the first such entry is replaced by the dict union (keys
present in the update overwrite, keys absent keep their prior values) and
every other entry is untouched; when no entry matches, the snapshot is
appended as a new entry. -/
theorem C6_upsert_merge :
    (∀ (pre suf : List Entry) (e info : Entry),
        (∀ q ∈ pre, q.task_id ≠ info.task_id) → e.task_id = info.task_id →
        update_task_in_session_state (pre ++ e :: suf) info =
          pre ++ mergeEntry e info :: suf) ∧
      (∀ (cache : List Entry) (info : Entry),
        (∀ q ∈ cache, q.task_id ≠ info.task_id) →
        update_task_in_session_state cache info = cache ++ [info]) ∧
      (∀ (a b : Entry) (f : Field),
        (b.get f = none → (mergeEntry a b).get f = a.get f) ∧
        (∀ v, b.get f = some v → (mergeEntry a b).get f = some v)) := by
  refine ⟨?_, ?_, ?_⟩
  · intro pre
    induction pre with
    | nil =>
      intro suf e info _ he
      simp only [List.nil_append, update_task_in_session_state]
      rw [if_pos (by simp [he])]
    | cons q pre ih =>
      intro suf e info hpre he
      have hq : q.task_id ≠ info.task_id := hpre q (List.mem_cons_self q pre)
      simp only [List.cons_append, update_task_in_session_state]
      rw [if_neg (by simp [hq])]
      exact congrArg (List.cons q)
        (ih suf e info (fun r hr => hpre r (List.mem_cons_of_mem q hr)) he)
  · intro cache
    induction cache with
    | nil =>
      intro info _
      rfl
    | cons q cache ih =>
      intro info hall
      have hq : q.task_id ≠ info.task_id := hall q (List.mem_cons_self q cache)
      simp only [update_task_in_session_state]
      rw [if_neg (by simp [hq])]
      exact congrArg (List.cons q)
        (ih info (fun r hr => hall r (List.mem_cons_of_mem q hr)))
  · intro a b f
    constructor
    · intro hb
      cases f <;> simp only [Entry.get] at hb <;>
        simp [mergeEntry, Entry.get, over, hb]
    · intro v hb
      cases f <;> simp only [Entry.get] at hb <;>
        simp [mergeEntry, Entry.get, over, hb]

/-- Witness for C6: merging a terminal snapshot into a one-entry cache and
one field-level merge fact. -/
theorem C6_witness :
    update_task_in_session_state [pendEntry "a" "1"] (termEntry "a" "2") =
        [mergeEntry (pendEntry "a" "1") (termEntry "a" "2")] ∧
      (mergeEntry (pendEntry "a" "1") (termEntry "a" "2")).get Field.prompt =
        (pendEntry "a" "1").get Field.prompt :=
  ⟨C6_upsert_merge.1 [] [] (pendEntry "a" "1") (termEntry "a" "2")
      (by simp) rfl,
    (C6_upsert_merge.2.2 (pendEntry "a" "1") (termEntry "a" "2") Field.prompt).1 rfl⟩

/-- C10: an entry whose status key is absent, null, or anything other than
pending and processing is classified terminal by the shared membership test:
it never contributes an id that sync re-fetches (every synchronized id comes
from an entry passing the non-terminal test), and eviction may drop such an
entry, as it drops the status-less entry of the concrete 21-entry cache. -/
theorem C10_terminal_classification :
    (∀ e : Entry,
        (e.status = none ∨ e.status = some none ∨
          (∀ s, e.status = some (some s) → s ≠ "pending" ∧ s ≠ "processing")) →
        isNonTerminalEntry e = false) ∧
      (∀ (cache : List Entry) (tid : String), tid ∈ pendingIds cache →
        ∃ e ∈ cache, isNonTerminalEntry e = true ∧ truthyId e = some tid) ∧
      statuslessEntry ∉ cleanup_old_tasks statuslessCache := by
  refine ⟨?_, ?_, by decide⟩
  · intro e h
    rcases hs : e.status with _ | v
    · simp [isNonTerminalEntry, hs]
    · rcases v with _ | s
      · simp [isNonTerminalEntry, hs]
      · rcases h with h | h | h
        · rw [hs] at h
          exact absurd h (by simp)
        · rw [hs] at h
          exact absurd h (by simp)
        · have h2 := h s hs
          simp [isNonTerminalEntry, hs, h2.1, h2.2]
  · intro cache tid h
    rcases List.mem_filterMap.1 h with ⟨e, he, hfe⟩
    by_cases hnt : isNonTerminalEntry e = true
    · rw [if_pos hnt] at hfe
      exact ⟨e, he, hnt, hfe⟩
    · rw [if_neg hnt] at hfe
      cases hfe

/-- Witness for C10 on the status-less entry. -/
theorem C10_witness :
    isNonTerminalEntry statuslessEntry = false ∧
      statuslessEntry ∉ cleanup_old_tasks statuslessCache :=
  ⟨C10_terminal_classification.1 statuslessEntry (Or.inl rfl),
    C10_terminal_classification.2.2⟩

/-- Witness for C5: the 5-non-terminal/30-terminal example evaluated. -/
theorem C5_witness : cleanup_old_tasks evictionInput = evictionExpected := by
  have h := C5_eviction evictionInput (by decide)
  exact h.2.2.2.2.2.1

/-- Witness for the amended C2 on the fallback-completed run from the empty
store. -/
theorem C2_witness :
    statusTrace "t" [] (runnerOps "t" "p" "u" "m" none none 0 5
        WorkerRun.finishedFallback) ∈
        ([["pending"], ["pending", "processing"],
          ["pending", "processing", "completed"],
          ["pending", "processing", "failed"]] : List (List String)) ∧
      List.Chain' stepOk (statusTrace "t" [] (runnerOps "t" "p" "u" "m" none none 0 5
        WorkerRun.finishedFallback)) :=
  C2_amended_runner_traces.1 WorkerRun.finishedFallback [] "t" "p" "u" "m" none none 0 5 rfl

/-! Helper lemmas for the synchronization loop. -/

theorem mergeEntry_dict (e : Entry) (t : Task) :
    mergeEntry e (task_to_dict t) = task_to_dict t := rfl

theorem task_to_dict_task_id (t : Task) :
    (task_to_dict t).task_id = some (some t.id) := rfl

theorem truthyId_eq_some {e : Entry} {tid : String} :
    truthyId e = some tid ↔ e.task_id = some (some tid) ∧ ¬ tid = "" := by
  obtain ⟨tf, f2, f3, f4, f5, f6, f7, f8, f9⟩ := e
  rcases tf with _ | v
  · simp [truthyId]
  · rcases v with _ | s
    · simp [truthyId]
    · simp only [truthyId]
      by_cases he : s = ""
      · subst he
        rw [if_pos (by simp)]
        constructor
        · intro h
          cases h
        · rintro ⟨h1, h2⟩
          injection h1 with h1
          injection h1 with h1
          exact absurd h1.symm h2
      · rw [if_neg (by simpa using he)]
        constructor
        · intro h
          injection h with h
          subst h
          exact ⟨rfl, he⟩
        · rintro ⟨h1, _⟩
          simpa using h1

theorem truthyId_ne_empty {e : Entry} {tid : String} (h : truthyId e = some tid) :
    ¬ tid = "" :=
  (truthyId_eq_some.1 h).2

theorem truthyId_dict {t : Task} (h : ¬ t.id = "") :
    truthyId (task_to_dict t) = some t.id :=
  truthyId_eq_some.2 ⟨rfl, h⟩

theorem mem_pendingIds {cache : List Entry} {tid : String} :
    tid ∈ pendingIds cache ↔
      ∃ e ∈ cache, isNonTerminalEntry e = true ∧ truthyId e = some tid := by
  constructor
  · intro h
    rcases List.mem_filterMap.1 h with ⟨e, he, hfe⟩
    by_cases hnt : isNonTerminalEntry e = true
    · rw [if_pos hnt] at hfe
      exact ⟨e, he, hnt, hfe⟩
    · rw [if_neg hnt] at hfe
      cases hfe
  · rintro ⟨e, he, hnt, ht⟩
    refine List.mem_filterMap.2 ⟨e, he, ?_⟩
    rw [if_pos hnt]
    exact ht

theorem countP_matching_le_one {cache : List Entry} (hd : DistinctIds cache)
    {tid : String} (htid : ¬ tid = "") :
    cache.countP (fun e => e.task_id == some (some tid)) ≤ 1 := by
  induction cache with
  | nil => simp
  | cons q cache ih =>
    rcases hq : truthyId q with _ | tq
    · have hqm : ¬ ((fun e : Entry => e.task_id == some (some tid)) q = true) := by
        intro hm
        have h2 : truthyId q = some tid :=
          truthyId_eq_some.2 ⟨by simpa using hm, htid⟩
        rw [hq] at h2
        cases h2
      rw [List.countP_cons_of_neg
        (fun e : Entry => e.task_id == some (some tid)) cache hqm]
      apply ih
      unfold DistinctIds at hd ⊢
      simpa [List.filterMap_cons, hq] using hd
    · have hd2 : List.Nodup (tq :: cache.filterMap truthyId) := by
        unfold DistinctIds at hd
        simpa [List.filterMap_cons, hq] using hd
      by_cases hqm : ((fun e : Entry => e.task_id == some (some tid)) q = true)
      · have htq : truthyId q = some tid :=
          truthyId_eq_some.2 ⟨by simpa using hqm, htid⟩
        rw [hq] at htq
        injection htq with htq
        rw [List.countP_cons_of_pos
          (fun e : Entry => e.task_id == some (some tid)) cache hqm]
        have hcount0 : cache.countP (fun e => e.task_id == some (some tid)) = 0 := by
          rw [List.countP_eq_zero]
          intro e he hm
          have h3 : truthyId e = some tid :=
            truthyId_eq_some.2 ⟨by simpa using hm, htid⟩
          apply (List.nodup_cons.1 hd2).1
          rw [htq]
          exact List.mem_filterMap.2 ⟨e, he, h3⟩
        omega
      · rw [List.countP_cons_of_neg
          (fun e : Entry => e.task_id == some (some tid)) cache hqm]
        apply ih
        exact (List.nodup_cons.1 hd2).2

theorem distinct_unique_entry {cache : List Entry} (hd : DistinctIds cache)
    {e1 e2 : Entry} {tid : String} (h1 : e1 ∈ cache) (h2 : e2 ∈ cache)
    (ht1 : truthyId e1 = some tid) (ht2 : truthyId e2 = some tid) : e1 = e2 := by
  induction cache with
  | nil => cases h1
  | cons q cache ih =>
    rcases hq : truthyId q with _ | tq
    · have hdt : DistinctIds cache := by
        unfold DistinctIds at hd ⊢
        simpa [List.filterMap_cons, hq] using hd
      rcases List.mem_cons.1 h1 with rfl | h1b
      · rw [hq] at ht1
        cases ht1
      rcases List.mem_cons.1 h2 with rfl | h2b
      · rw [hq] at ht2
        cases ht2
      exact ih hdt h1b h2b
    · have hd2 : List.Nodup (tq :: cache.filterMap truthyId) := by
        unfold DistinctIds at hd
        simpa [List.filterMap_cons, hq] using hd
      rcases List.mem_cons.1 h1 with rfl | h1b <;>
        rcases List.mem_cons.1 h2 with rfl | h2b
      · rfl
      · rw [hq] at ht1
        injection ht1 with htq
        subst htq
        exact absurd (List.mem_filterMap.2 ⟨e2, h2b, ht2⟩)
          (List.nodup_cons.1 hd2).1
      · rw [hq] at ht2
        injection ht2 with htq
        subst htq
        exact absurd (List.mem_filterMap.2 ⟨e1, h1b, ht1⟩)
          (List.nodup_cons.1 hd2).1
      · exact ih (List.nodup_cons.1 hd2).2 h1b h2b

theorem update_in_state_eq_map (info : Entry) :
    ∀ cache : List Entry,
      cache.countP (fun e => e.task_id == info.task_id) ≤ 1 →
      (∃ e ∈ cache, e.task_id = info.task_id) →
      update_task_in_session_state cache info =
        cache.map (fun e => if e.task_id == info.task_id then mergeEntry e info else e)
  | [], _, hex => by
    rcases hex with ⟨e, he, _⟩
    cases he
  | q :: cache, hcount, hex => by
    by_cases hq : (q.task_id == info.task_id) = true
    · simp only [update_task_in_session_state, List.map_cons]
      rw [if_pos hq, if_pos hq]
      have hc0 : cache.countP (fun e => e.task_id == info.task_id) = 0 := by
        rw [List.countP_cons_of_pos (fun e : Entry => e.task_id == info.task_id)
          cache hq] at hcount
        omega
      have hnomatch := List.countP_eq_zero.1 hc0
      have hmap : cache.map
          (fun e => if e.task_id == info.task_id then mergeEntry e info else e) =
          List.map id cache := by
        refine List.map_congr_left (fun e he => ?_)
        rw [if_neg (hnomatch e he)]
        rfl
      rw [hmap, List.map_id]
    · simp only [update_task_in_session_state, List.map_cons]
      rw [if_neg hq, if_neg hq]
      have hcount2 : cache.countP (fun e => e.task_id == info.task_id) ≤ 1 := by
        rw [List.countP_cons_of_neg (fun e : Entry => e.task_id == info.task_id)
          cache hq] at hcount
        exact hcount
      have hex2 : ∃ e ∈ cache, e.task_id = info.task_id := by
        rcases hex with ⟨e, he, hmatch⟩
        rcases List.mem_cons.1 he with rfl | he2
        · exact absurd (by simp [hmatch]) hq
        · exact ⟨e, he2, hmatch⟩
      exact congrArg (List.cons q) (update_in_state_eq_map info cache hcount2 hex2)

theorem truthyId_refreshIf (store : Store) (ids : List String) (e : Entry) :
    truthyId (refreshIf store ids e) = truthyId e := by
  rcases ht : truthyId e with _ | tid
  · simp only [refreshIf, ht]
  · by_cases hmem : tid ∈ ids
    · cases hg : get_task store tid with
      | none =>
        simp only [refreshIf, ht, hg]
        rw [if_pos hmem]
        exact ht
      | some t =>
        have hid : t.id = tid := get_task_id hg
        simp only [refreshIf, ht, hg]
        rw [if_pos hmem]
        rw [truthyId_dict (by rw [hid]; exact truthyId_ne_empty ht), hid]
    · simp only [refreshIf, ht]
      rw [if_neg hmem]
      exact ht

theorem filterMap_truthyId_refresh (store : Store) (ids : List String)
    (cache : List Entry) :
    (cache.map (refreshIf store ids)).filterMap truthyId =
      cache.filterMap truthyId := by
  rw [List.filterMap_map]
  exact List.filterMap_congr (fun e _ => truthyId_refreshIf store ids e)

theorem distinctIds_map_refreshIf (store : Store) (ids : List String)
    {cache : List Entry} (hd : DistinctIds cache) :
    DistinctIds (cache.map (refreshIf store ids)) := by
  unfold DistinctIds at hd ⊢
  rw [filterMap_truthyId_refresh]
  exact hd

theorem syncStep_eq_map (store : Store) (cache : List Entry) (tid : String)
    (hd : DistinctIds cache) (hex : ∃ e ∈ cache, truthyId e = some tid) :
    syncStep store cache tid = cache.map (refreshIf store [tid]) := by
  have htid : ¬ tid = "" := by
    rcases hex with ⟨e, _, he⟩
    exact truthyId_ne_empty he
  cases hg : get_task store tid with
  | none =>
    have hpt : ∀ e : Entry, refreshIf store [tid] e = e := by
      intro e
      rcases ht : truthyId e with _ | tid2
      · simp only [refreshIf, ht]
      · by_cases hmem : tid2 ∈ [tid]
        · have h2 : tid2 = tid := by simpa using hmem
          subst h2
          simp only [refreshIf, ht, hg]
          rw [if_pos hmem]
        · simp only [refreshIf, ht]
          rw [if_neg hmem]
    simp only [syncStep, hg]
    rw [List.map_id'' hpt]
  | some t =>
    have hid : t.id = tid := get_task_id hg
    have hkey : (task_to_dict t).task_id = some (some tid) := by
      rw [task_to_dict_task_id, hid]
    have hcount : cache.countP (fun e => e.task_id == (task_to_dict t).task_id) ≤ 1 := by
      rw [hkey]
      exact countP_matching_le_one hd htid
    have hex2 : ∃ e ∈ cache, e.task_id = (task_to_dict t).task_id := by
      rcases hex with ⟨e, he, htr⟩
      exact ⟨e, he, by rw [hkey]; exact (truthyId_eq_some.1 htr).1⟩
    simp only [syncStep, hg]
    rw [update_in_state_eq_map (task_to_dict t) cache hcount hex2]
    apply List.map_congr_left
    intro e he
    by_cases hm : (e.task_id == (task_to_dict t).task_id) = true
    · rw [if_pos hm, mergeEntry_dict]
      have htr : truthyId e = some tid :=
        truthyId_eq_some.2 ⟨by rw [hkey] at hm; simpa using hm, htid⟩
      simp only [refreshIf, htr, hg]
      rw [if_pos (List.mem_singleton_self tid)]
    · rw [if_neg hm]
      rcases ht2 : truthyId e with _ | tid2
      · simp only [refreshIf, ht2]
      · have hne : ¬ tid2 ∈ [tid] := by
          simp only [List.mem_singleton]
          intro hcon
          subst hcon
          have h3 := (truthyId_eq_some.1 ht2).1
          rw [← hkey] at h3
          exact hm (by simp [h3])
        simp only [refreshIf, ht2]
        rw [if_neg hne]

theorem refreshIf_compose (store : Store) (tid : String) (ids : List String)
    (e : Entry) :
    refreshIf store ids (refreshIf store [tid] e) =
      refreshIf store (tid :: ids) e := by
  rcases ht : truthyId e with _ | tid2
  · have h1 : refreshIf store [tid] e = e := by
      simp only [refreshIf, ht]
    rw [h1]
    simp only [refreshIf, ht]
  · by_cases h12 : tid2 = tid
    · subst h12
      cases hg : get_task store tid2 with
      | none =>
        have h1 : refreshIf store [tid2] e = e := by
          simp only [refreshIf, ht, hg]
          rw [if_pos (List.mem_singleton_self tid2)]
        rw [h1]
        simp only [refreshIf, ht, hg]
        rw [if_pos (List.mem_cons_self tid2 ids)]
        by_cases hmem : tid2 ∈ ids
        · rw [if_pos hmem]
        · rw [if_neg hmem]
      | some t =>
        have hid : t.id = tid2 := get_task_id hg
        have htd : truthyId (task_to_dict t) = some tid2 := by
          rw [truthyId_dict (by rw [hid]; exact truthyId_ne_empty ht), hid]
        have h1 : refreshIf store [tid2] e = task_to_dict t := by
          simp only [refreshIf, ht, hg]
          rw [if_pos (List.mem_singleton_self tid2)]
        rw [h1]
        simp only [refreshIf, ht, htd, hg]
        rw [if_pos (List.mem_cons_self tid2 ids)]
        by_cases hmem : tid2 ∈ ids
        · rw [if_pos hmem]
        · rw [if_neg hmem]
    · have h1 : refreshIf store [tid] e = e := by
        simp only [refreshIf, ht]
        rw [if_neg (by simpa using h12)]
      rw [h1]
      simp only [refreshIf, ht]
      by_cases hmem : tid2 ∈ ids
      · rw [if_pos hmem, if_pos (List.mem_cons_of_mem tid hmem)]
      · rw [if_neg hmem, if_neg (by simp [h12, hmem])]

theorem foldl_syncStep_eq_map (store : Store) :
    ∀ (ids : List String) (cache : List Entry), DistinctIds cache →
      (∀ tid ∈ ids, ∃ e ∈ cache, truthyId e = some tid) →
      ids.foldl (syncStep store) cache = cache.map (refreshIf store ids)
  | [], cache, _, _ => by
    simp only [List.foldl_nil]
    have hpt : ∀ e : Entry, refreshIf store [] e = e := by
      intro e
      rcases ht : truthyId e with _ | tid2
      · simp only [refreshIf, ht]
      · simp only [refreshIf, ht]
        rw [if_neg (List.not_mem_nil tid2)]
    rw [List.map_id'' hpt]
  | tid :: ids, cache, hd, hex => by
    simp only [List.foldl_cons]
    rw [syncStep_eq_map store cache tid hd (hex tid (List.mem_cons_self tid ids))]
    rw [foldl_syncStep_eq_map store ids (cache.map (refreshIf store [tid]))
      (distinctIds_map_refreshIf store [tid] hd)
      (fun tid2 h2 => by
        rcases hex tid2 (List.mem_cons_of_mem tid h2) with ⟨e, he, htr⟩
        exact ⟨refreshIf store [tid] e, List.mem_map_of_mem _ he,
          by rw [truthyId_refreshIf]; exact htr⟩)]
    rw [List.map_map]
    exact List.map_congr_left (fun e _ => refreshIf_compose store tid ids e)

theorem cleanup_subperm (l : List Entry) :
    List.Subperm (cleanup_old_tasks l) l := by
  by_cases h : l.length ≤ MAX_TASKS_IN_SESSION_STATE
  · have hcl : cleanup_old_tasks l = l := by rw [cleanup_old_tasks, if_pos h]
    rw [hcl]
  · have hres : cleanup_old_tasks l =
        l.filter isNonTerminalEntry ++
          (sortDescBy (fun a b => strLe (entryKey a) (entryKey b))
            (l.filter (fun t => !isNonTerminalEntry t))).take
            (max 0 ((MAX_TASKS_IN_SESSION_STATE : Int) -
              (l.filter isNonTerminalEntry).length)).toNat := by
      rw [cleanup_old_tasks, if_neg h]
    rw [hres]
    have h1 : List.Sublist
        (l.filter isNonTerminalEntry ++
          (sortDescBy (fun a b => strLe (entryKey a) (entryKey b))
            (l.filter (fun t => !isNonTerminalEntry t))).take
            (max 0 ((MAX_TASKS_IN_SESSION_STATE : Int) -
              (l.filter isNonTerminalEntry).length)).toNat)
        (l.filter isNonTerminalEntry ++
          sortDescBy (fun a b => strLe (entryKey a) (entryKey b))
            (l.filter (fun t => !isNonTerminalEntry t))) :=
      (List.append_sublist_append_left _).2 (List.take_sublist _ _)
    have h2 : List.Perm
        (l.filter isNonTerminalEntry ++
          sortDescBy (fun a b => strLe (entryKey a) (entryKey b))
            (l.filter (fun t => !isNonTerminalEntry t))) l :=
      (List.Perm.append_left _ (sortDescBy_perm _ _)).trans
        (List.filter_append_perm _ l)
    exact h1.subperm.trans h2.subperm

theorem distinctIds_of_subperm {l1 l2 : List Entry}
    (hs : List.Subperm l1 l2) (hd : DistinctIds l2) : DistinctIds l1 := by
  obtain ⟨l, hperm, hsub⟩ := hs
  unfold DistinctIds at hd ⊢
  have h1 : (l.filterMap truthyId).Nodup := hd.sublist (hsub.filterMap truthyId)
  exact ((hperm.filterMap truthyId).nodup_iff).1 h1

theorem cleanup_idem (l : List Entry) :
    cleanup_old_tasks (cleanup_old_tasks l) = cleanup_old_tasks l := by
  by_cases h : l.length ≤ MAX_TASKS_IN_SESSION_STATE
  · have hcl : cleanup_old_tasks l = l := by rw [cleanup_old_tasks, if_pos h]
    rw [hcl]
    exact hcl
  · set p := l.filter isNonTerminalEntry with hp
    set c := l.filter (fun t => !isNonTerminalEntry t) with hcdef
    set s := sortDescBy (fun a b => strLe (entryKey a) (entryKey b)) c with hsdef
    set n := (max 0 ((MAX_TASKS_IN_SESSION_STATE : Int) - p.length)).toNat with hndef
    have hres : cleanup_old_tasks l = p ++ s.take n := by
      rw [cleanup_old_tasks, if_neg h]
    by_cases h2 : (p ++ s.take n).length ≤ MAX_TASKS_IN_SESSION_STATE
    · rw [hres, cleanup_old_tasks, if_pos h2]
    · have hp20 : MAX_TASKS_IN_SESSION_STATE < p.length := by
        by_contra hle
        push_neg at hle
        apply h2
        have hn_le : n ≤ MAX_TASKS_IN_SESSION_STATE - p.length := by
          rw [hndef, max_eq_right
            (by simp only [MAX_TASKS_IN_SESSION_STATE] at hle ⊢; omega)]
          simp only [MAX_TASKS_IN_SESSION_STATE] at hle ⊢
          omega
        rw [List.length_append, List.length_take]
        simp only [MAX_TASKS_IN_SESSION_STATE] at hle hn_le ⊢
        omega
      have hn0 : n = 0 := by
        rw [hndef, max_eq_left
          (by simp only [MAX_TASKS_IN_SESSION_STATE] at hp20 ⊢; omega)]
        rfl
      have hresp : cleanup_old_tasks l = p := by
        rw [hres, hn0]
        simp
      have hall : ∀ e ∈ p, isNonTerminalEntry e = true := fun e he =>
        (List.mem_filter.1 he).2
      have hnil : p.filter (fun t => !isNonTerminalEntry t) = [] :=
        List.filter_eq_nil_iff.2 (fun e he => by simp [hall e he])
      have hres2 : cleanup_old_tasks p =
          p.filter isNonTerminalEntry ++
            (sortDescBy (fun a b => strLe (entryKey a) (entryKey b))
              (p.filter (fun t => !isNonTerminalEntry t))).take
              (max 0 ((MAX_TASKS_IN_SESSION_STATE : Int) -
                (p.filter isNonTerminalEntry).length)).toNat := by
        rw [cleanup_old_tasks, if_neg (Nat.not_le.mpr hp20)]
      rw [hresp, hres2, List.filter_eq_self.2 hall, hnil]
      simp [sortDescBy]

/-- C8 fails as stated: on a cache holding two entries with the same task id
(plus enough old terminal entries that the retention cleanup reorders the
cache), a second `sync_pending_tasks` against the unchanged store changes the
cache again. -/
theorem C8_counterexample :
    sync_pending_tasks dupStore (sync_pending_tasks dupStore dupCache) ≠
      sync_pending_tasks dupStore dupCache := by
  decide

/-- C8 amended: for every store and every session cache in which no two
entries carry the same truthy task id — the discipline every cache maintained
by the system's own upsert satisfies — running `sync_pending_tasks` twice
with no intervening store change leaves exactly the cache of the first run. -/
theorem C8_amended_sync_idempotent (store : Store) (cache : List Entry)
    (hd : DistinctIds cache) :
    sync_pending_tasks store (sync_pending_tasks store cache) =
      sync_pending_tasks store cache := by
  by_cases hids : (pendingIds cache).isEmpty
  · have h1 : sync_pending_tasks store cache = cache := by
      rw [sync_pending_tasks, if_pos hids]
    rw [h1]
    exact h1
  · have hex : ∀ tid ∈ pendingIds cache, ∃ e ∈ cache, truthyId e = some tid := by
      intro tid h
      rcases mem_pendingIds.1 h with ⟨e, he, _, ht⟩
      exact ⟨e, he, ht⟩
    have hsync1 : sync_pending_tasks store cache =
        cleanup_old_tasks (cache.map (refreshIf store (pendingIds cache))) := by
      rw [sync_pending_tasks, if_neg hids,
        foldl_syncStep_eq_map store (pendingIds cache) cache hd hex]
    set M := cache.map (refreshIf store (pendingIds cache)) with hM
    set C1 := cleanup_old_tasks M with hC1
    have hdM : DistinctIds M := by
      rw [hM]
      exact distinctIds_map_refreshIf store (pendingIds cache) hd
    have hdC1 : DistinctIds C1 := by
      rw [hC1]
      exact distinctIds_of_subperm (cleanup_subperm M) hdM
    have hfix : ∀ e ∈ C1, refreshIf store (pendingIds C1) e = e := by
      intro e he
      rcases ht : truthyId e with _ | tid
      · simp only [refreshIf, ht]
      · by_cases hmem : tid ∈ pendingIds C1
        · rcases mem_pendingIds.1 hmem with ⟨w, hw, hwnt, hwt⟩
          have hew : e = w := distinct_unique_entry hdC1 he hw ht hwt
          cases hg : get_task store tid with
          | none =>
            simp only [refreshIf, ht, hg]
            rw [if_pos hmem]
          | some t =>
            have he2 : e ∈ cleanup_old_tasks M := by
              rw [← hC1]
              exact he
            have heM : e ∈ M := (cleanup_subperm M).subset he2
            rcases List.mem_map.1 heM with ⟨x, hx, hxe⟩
            have hxt : truthyId x = some tid := by
              rw [← truthyId_refreshIf store (pendingIds cache) x, hxe, ht]
            by_cases hxm : tid ∈ pendingIds cache
            · have hx2 : refreshIf store (pendingIds cache) x = task_to_dict t := by
                simp only [refreshIf, hxt, hg]
                rw [if_pos hxm]
              simp only [refreshIf, ht, hg]
              rw [if_pos hmem, ← hxe, hx2]
            · have hx2 : refreshIf store (pendingIds cache) x = x := by
                simp only [refreshIf, hxt]
                rw [if_neg hxm]
              have hxe2 : x = e := by
                rw [← hxe, hx2]
              have hcon : tid ∈ pendingIds cache := by
                refine mem_pendingIds.2 ⟨x, hx, ?_, hxt⟩
                rw [hxe2, hew]
                exact hwnt
              exact absurd hcon hxm
        · simp only [refreshIf, ht]
          rw [if_neg hmem]
    have hmapfix : C1.map (refreshIf store (pendingIds C1)) = C1 := by
      rw [List.map_congr_left hfix]
      exact List.map_id C1
    by_cases hids2 : (pendingIds C1).isEmpty
    · rw [hsync1]
      rw [sync_pending_tasks, if_pos hids2]
    · rw [hsync1]
      have hex2 : ∀ tid ∈ pendingIds C1, ∃ e ∈ C1, truthyId e = some tid := by
        intro tid h
        rcases mem_pendingIds.1 h with ⟨e, he, _, ht⟩
        exact ⟨e, he, ht⟩
      rw [sync_pending_tasks, if_neg hids2,
        foldl_syncStep_eq_map store (pendingIds C1) C1 hdC1 hex2, hmapfix, hC1]
      exact cleanup_idem M

/-- Witness for the amended C8 on a one-entry pending cache whose task has
completed in the store. -/
theorem C8_witness :
    DistinctIds [pendEntry "a" "1"] ∧
      sync_pending_tasks
          [⟨"a", "p", "completed", some "u", none, 0, some 5, none, none⟩]
          (sync_pending_tasks
            [⟨"a", "p", "completed", some "u", none, 0, some 5, none, none⟩]
            [pendEntry "a" "1"]) =
        sync_pending_tasks
          [⟨"a", "p", "completed", some "u", none, 0, some 5, none, none⟩]
          [pendEntry "a" "1"] :=
  ⟨by unfold DistinctIds; decide,
    C8_amended_sync_idempotent
      [⟨"a", "p", "completed", some "u", none, 0, some 5, none, none⟩]
      [pendEntry "a" "1"] (by unfold DistinctIds; decide)⟩

end Yanshu
